import Mathlib

/-!
Shallow embedding of the MYR/SGD mean-reversion backtest
(`src/backtest.py` of the repository), written to settle the claims of the
design document against the code.

Modelling conventions.
* Numbers are exact elements of a linear ordered field `α`; statements about
  the concrete program instantiate `α := ℝ` with `Real.log`, `Real.sqrt`,
  `Real.exp`, while executable witnesses instantiate `α := ℚ`.
* A pandas float column is a function `ℕ → Option α`: `none` models a
  NaN/missing cell, `some v` a finite value.  Every comparison with a NaN
  cell is false, as for IEEE NaN.
* The integer `signal` column is a total function `ℕ → ℤ` (it is initialised
  to 0 and never receives a missing value).
* Aggregations over a frame with `n` rows traverse `List.range n`.
-/

namespace MYRSGD

variable {α : Type} [LinearOrderedField α]

/-- NaN-propagating multiplication of float cells. -/
def nmul : Option α → Option α → Option α
  | some a, some b => some (a * b)
  | _, _ => none

/-- NaN-propagating subtraction of float cells. -/
def nsub : Option α → Option α → Option α
  | some a, some b => some (a - b)
  | _, _ => none

/-- NaN-propagating division of float cells.  A zero divisor gives `none`:
in the source the only zero divisor is a zero rolling std, where the
numerator is also zero and the float quotient is NaN; every other division
is guarded by an explicit `!= 0` test. -/
def ndiv : Option α → Option α → Option α
  | some a, some b => if b = 0 then none else some (a / b)
  | _, _ => none

/-- Cell value with missing treated as 0: `fillna(0)`, and the skip-NaN
convention of pandas sums. -/
def fill0 : Option α → α
  | none => 0
  | some v => v

/-- The Python test `x != 0` on a float cell; for the float NaN the test
`NaN != 0` is True. -/
def nne0 : Option α → Bool
  | none => true
  | some v => !(decide (v = 0))

/-- `Series.shift(1)`: cell `t` becomes the previous cell, NaN at `t = 0`. -/
def shiftO (c : ℕ → Option α) : ℕ → Option α :=
  fun t => if t = 0 then none else c (t - 1)

/-- Collects a list of cells into `some` list exactly when no cell is
missing. -/
def seqOpt : List (Option α) → Option (List α)
  | [] => some []
  | none :: _ => none
  | some v :: xs => (seqOpt xs).map (fun l => v :: l)

/-- The trailing window of `w` cells ending at row `t` (rows `t-w+1 .. t`),
available only when `t ≥ w - 1` and no cell of the window is missing
(pandas `rolling(w)` with its default `min_periods = w`). -/
def windowAt (c : ℕ → Option α) (w t : ℕ) : Option (List α) :=
  if t + 1 < w then none
  else seqOpt ((List.range w).map (fun i => c (t + 1 - w + i)))

/-- Mean of a list of values, `sum/length`. -/
def listMean (l : List α) : α := l.sum / (l.length : α)

/-- Sample variance with `ddof = 1`, as inside pandas `.std()`. -/
def sampleVar (l : List α) : α :=
  (l.map (fun x => (x - listMean l) ^ 2)).sum / ((l.length - 1 : ℕ) : α)

/-- `rolling(window).mean()` of a column. -/
def rollingMean (ls : ℕ → Option α) (w : ℕ) : ℕ → Option α :=
  fun t => (windowAt ls w t).map listMean

/-- `rolling(window).std()` of a column: NaN while the window is not full,
and for `window ≤ 1` where the `ddof = 1` denominator vanishes. -/
def rollingStd (sqrtF : α → α) (ls : ℕ → Option α) (w : ℕ) : ℕ → Option α :=
  fun t => if w ≤ 1 then none
    else (windowAt ls w t).map (fun l => sqrtF (sampleVar l))

/-- Line 51: `zscore = (log_spread - mean) / std`.  When the rolling std is
zero the whole window equals its mean, so the float quotient is `0/0 = NaN`;
`ndiv` returns `none` there. -/
def zscoreCol (sqrtF : α → α) (ls : ℕ → Option α) (w : ℕ) : ℕ → Option α :=
  fun t => ndiv (nsub (ls t) (rollingMean ls w t)) (rollingStd sqrtF ls w t)

/-- Lines 54-59, the signal cell as a function of the zscore cell.  It
mirrors the sequence of mask assignments
`signal = 0; signal[z > entry] = -1; signal[z < -entry] = 1;
signal[|z| < exit] = 0` (each later assignment overwrites the earlier ones
where its mask holds).  A NaN zscore matches no mask, so the initial 0
survives.  The final `ffill().fillna(0)` of line 59 is the identity: the
column starts as the integer 0 everywhere and never holds a missing value,
so there is nothing to fill. -/
def signalAt (entry_z exit_z : α) (z : Option α) : ℤ :=
  match z with
  | none => 0
  | some zv =>
      let s1 : ℤ := if zv > entry_z then -1 else 0
      let s2 : ℤ := if zv < -entry_z then 1 else s1
      if |zv| < exit_z then 0 else s2

/-- The signal column of the backtest. -/
def signalCol (sqrtF : α → α) (w : ℕ) (entry_z exit_z : α)
    (ls : ℕ → Option α) : ℕ → ℤ :=
  fun t => signalAt entry_z exit_z (zscoreCol sqrtF ls w t)

/-- Signals produced from a list of zscore cells (the zscore column read off
along its rows). -/
def signalsFromZ (entry_z exit_z : α) (zs : List (Option α)) : List ℤ :=
  zs.map (signalAt entry_z exit_z)

/-- Line 62: `spread_ret = log_spread.diff()`. -/
def spreadRetCol (ls : ℕ → Option α) : ℕ → Option α :=
  fun t => nsub (ls t) (shiftO ls t)

/-- Line 63: `trade_cost = signal.diff().abs() * trans_cost`.  The signal
column is integer valued, so the only missing cell is the one `diff`
introduces at row 0. -/
def tradeCostCol (sig : ℕ → ℤ) (trans_cost : α) : ℕ → Option α :=
  fun t => if t = 0 then none
    else some (((|sig t - sig (t - 1)| : ℤ) : α) * trans_cost)

/-- Line 64:
`strategy_ret = signal.shift(1) * spread_ret - trade_cost.shift(1).fillna(0)`. -/
def strategyRetCol (ls : ℕ → Option α) (sig : ℕ → ℤ) (trans_cost : α) :
    ℕ → Option α :=
  fun t =>
    nsub (nmul (shiftO (fun u => some ((sig u : ℤ) : α)) t) (spreadRetCol ls t))
      (some (fill0 (shiftO (tradeCostCol sig trans_cost) t)))

/-- `.mean()` of a float column (skips NaN; NaN when no valid cell exists). -/
def meanOf (r : List (Option α)) : Option α :=
  let valid := r.filterMap id
  if valid.length = 0 then none else some (listMean valid)

/-- `.std()` of a list of valid values, `ddof = 1` (NaN with fewer than two
values). -/
def stdOfList (sqrtF : α → α) (l : List α) : Option α :=
  if l.length < 2 then none else some (sqrtF (sampleVar l))

/-- `.std()` of a float column (skips NaN). -/
def stdOf (sqrtF : α → α) (r : List (Option α)) : Option α :=
  stdOfList sqrtF (r.filterMap id)

/-- Line 78: `sharpe = mean/std * sqrt(252) if std != 0 else 0`.  Note that
when the std is NaN the Python test `NaN != 0` is True and the NaN
propagates into the product. -/
def sharpeOf (sqrtF : α → α) (r : List (Option α)) : Option α :=
  if nne0 (stdOf sqrtF r) then
    nmul (ndiv (meanOf r) (stdOf sqrtF r)) (some (sqrtF 252))
  else some 0

/-- Line 81: the std of the strictly negative cells only (a NaN cell fails
the `< 0` comparison and is dropped by the mask). -/
def downStdOf (sqrtF : α → α) (r : List (Option α)) : Option α :=
  stdOfList sqrtF ((r.filterMap id).filter (fun x => decide (x < 0)))

/-- Line 82: `sortino = mean/downside_std * sqrt(252) if downside_std != 0
else 0`, same NaN caveat as the sharpe. -/
def sortinoOf (sqrtF : α → α) (r : List (Option α)) : Option α :=
  if nne0 (downStdOf sqrtF r) then
    nmul (ndiv (meanOf r) (downStdOf sqrtF r)) (some (sqrtF 252))
  else some 0

/-- pandas `cumsum()` on a float column: running sum of the valid cells, the
missing cells stay missing.  Line 67 assigns `cumsum().dropna()` back to the
frame, which re-aligns on the index and is therefore the identity on the
column. -/
def cumsumSkip (acc : α) : List (Option α) → List (Option α)
  | [] => []
  | none :: xs => none :: cumsumSkip acc xs
  | some v :: xs => some (acc + v) :: cumsumSkip (acc + v) xs

/-- Running maximum continuing from `m`. -/
def cummaxFrom (m : α) : List α → List α
  | [] => []
  | x :: xs => max m x :: cummaxFrom (max m x) xs

/-- `cummax()` of a column of values. -/
def cummax : List α → List α
  | [] => []
  | x :: xs => x :: cummaxFrom x xs

/-- `.min()` of a column of values (NaN on an empty column). -/
def listMin : List α → Option α
  | [] => none
  | x :: xs => some (xs.foldl min x)

/-- Lines 85-88: `wealth = exp(cum_ret.fillna(0))`, `peak = wealth.cummax()`,
`max_dd = (wealth/peak - 1).min()`. -/
def maxDDOf (expF : α → α) (r : List (Option α)) : Option α :=
  let wealth := (cumsumSkip 0 r).map (fun c => expF (fill0 c))
  let peak := cummax wealth
  listMin ((wealth.zip peak).map (fun p => p.1 / p.2 - 1))

/-- Line 110: `positions.cumsum()` with `positions = signal != 0`, counting
from `k`. -/
def cumKeysFrom (k : ℕ) : List ℤ → List ℕ
  | [] => []
  | s :: ss =>
      let k2 := if s = 0 then k else k + 1
      k2 :: cumKeysFrom k2 ss

/-- `groupby(keys).sum()` for positionally nondecreasing keys: the sums of
the maximal blocks of equal adjacent keys, in key order, a NaN cell summed
as 0 (pandas group sums skip NaN and give 0 on an all-NaN group). -/
def groupSumsFrom (acc : α) (k : ℕ) : List (ℕ × Option α) → List α
  | [] => [acc]
  | (k2, v) :: rest =>
      if k2 = k then groupSumsFrom (acc + fill0 v) k rest
      else acc :: groupSumsFrom (fill0 v) k2 rest

/-- `groupby(keys).sum()` over the zipped (key, cell) rows. -/
def groupSums : List (ℕ × Option α) → List α
  | [] => []
  | (k, v) :: rest => groupSumsFrom (fill0 v) k rest

/-- Line 111: `trade_returns = strategy_ret.groupby(positions.cumsum()).sum()`. -/
def tradeReturnsAllOf (sig : List ℤ) (r : List (Option α)) : List α :=
  groupSums ((cumKeysFrom 0 sig).zip r)

/-- Line 112: the group sums restricted to the nonzero ones. -/
def tradeReturnsOf (sig : List ℤ) (r : List (Option α)) : List α :=
  (tradeReturnsAllOf sig r).filter (fun x => !(decide (x = 0)))

/-- Line 113: `win_rate = (trade_returns > 0).mean() if len(trade_returns) > 0
else 0`. -/
def winRateOf (sig : List ℤ) (r : List (Option α)) : α :=
  let ts := tradeReturnsOf sig r
  if 0 < ts.length then
    ((ts.countP (fun x => decide (0 < x)) : ℕ) : α) / (ts.length : α)
  else 0

/-- Line 114: mean of the positive group sums, 0 when there is none. -/
def avgWinOf (sig : List ℤ) (r : List (Option α)) : α :=
  let ws := (tradeReturnsOf sig r).filter (fun x => decide (0 < x))
  if 0 < ws.length then listMean ws else 0

/-- Line 115: mean of the negative group sums, -1 when there is none. -/
def avgLossOf (sig : List ℤ) (r : List (Option α)) : α :=
  let ls := (tradeReturnsOf sig r).filter (fun x => decide (x < 0))
  if 0 < ls.length then listMean ls else -1

/-- The grouping lines 110-112 actually perform, stated directly on the
signal path: every row with a nonzero signal opens a new group which also
absorbs the flat rows immediately following it, and an extra leading group
holds the flat rows before the first nonzero one. -/
def sigSegFrom (acc : α) : List ℤ → List (Option α) → List α
  | [], _ => [acc]
  | _ :: _, [] => [acc]
  | s :: ss, v :: vs =>
      if s = 0 then sigSegFrom (acc + fill0 v) ss vs
      else acc :: sigSegFrom (fill0 v) ss vs

/-- Row-grouping of the whole frame, per-nonzero-row as above. -/
def sigSegSums : List ℤ → List (Option α) → List α
  | [], _ => []
  | _ :: _, [] => []
  | s :: ss, v :: vs =>
      let _ := s
      sigSegFrom (fill0 v) ss vs

/-- Modelled from the spec's words (design §4.5, claim C4): the per-trade
sums over the maximal contiguous runs of nonzero signal, for comparison
with the code's grouping. -/
def runSeg (inRun : Bool) (acc : α) : List ℤ → List (Option α) → List α
  | [], _ => if inRun then [acc] else []
  | _ :: _, [] => if inRun then [acc] else []
  | s :: ss, v :: vs =>
      if s = 0 then (if inRun then [acc] else []) ++ runSeg false 0 ss vs
      else runSeg true (if inRun then acc + fill0 v else fill0 v) ss vs

/-- Modelled from the spec's words: sums of strategy returns over maximal
nonzero-signal runs. -/
def runSegSums (sig : List ℤ) (r : List (Option α)) : List α :=
  runSeg false 0 sig r

/-- Modelled from the spec's words: the fraction of per-run sums that are
positive. -/
def specWinRate (sig : List ℤ) (r : List (Option α)) : α :=
  let ts := runSegSums sig r
  if 0 < ts.length then
    ((ts.countP (fun x => decide (0 < x)) : ℕ) : α) / (ts.length : α)
  else 0

/-- Lines 96-107: the lengths of the maximal runs of in-position rows. -/
def durationsFrom (current : ℕ) : List Bool → List ℕ
  | [] => if 0 < current then [current] else []
  | b :: bs =>
      if b then durationsFrom (current + 1) bs
      else if 0 < current then current :: durationsFrom 0 bs
      else durationsFrom 0 bs

/-- Lines 92-93: `(positions.diff() > 0).sum()`.  The diff of a boolean
column is its xor with the shifted column (so the count marks every toggle),
and the NaN of row 0 fails the `> 0` comparison. -/
def countToggles : Bool → List Bool → ℕ
  | _, [] => 0
  | prev, b :: bs => (if b != prev then 1 else 0) + countToggles b bs

/-- `num_trades` of the metrics block. -/
def numTradesOf : List Bool → ℕ
  | [] => 0
  | b :: bs => countToggles b bs

/-- The metrics dict assembled at lines 124-136. -/
structure Metrics (α : Type) where
  total_return : α
  cagr : α
  sharpe : Option α
  sortino : Option α
  max_dd : Option α
  win_rate : α
  num_trades : ℕ
  avg_duration : α
  avg_win : α
  avg_loss : α
  kelly : α

/-- A DataFrame: a row count and named float columns (later bindings of a
name shadow earlier ones). -/
structure Frame (α : Type) where
  nrows : ℕ
  cols : List (String × (ℕ → Option α))

/-- Column selection `df[name]` (an absent name yields an all-NaN column;
the source only selects columns it created). -/
def getCol (df : Frame α) (name : String) : ℕ → Option α :=
  match df.cols.lookup name with
  | some c => c
  | none => fun _ => none

/-- Column assignment `df[name] = col`. -/
def setCol (df : Frame α) (name : String) (c : ℕ → Option α) : Frame α :=
  ⟨df.nrows, (name, c) :: df.cols⟩

def colMYRSGD : String := "MYR_SGD"

def colLogSpread : String := "log_spread"

def colMean : String := "mean"

def colStd : String := "std"

def colZscore : String := "zscore"

def colSignal : String := "signal"

def colSpreadRet : String := "spread_ret"

def colTradeCost : String := "trade_cost"

def colStrategyRet : String := "strategy_ret"

def colCumRet : String := "cum_ret"

/-- What `run_backtest` returns: either the bare one-key dict
`{'sharpe': -np.inf}` of the short-sample branch (line 71), or the
`(metrics, data)` pair of the normal branch (line 137). -/
inductive BTResult (α : Type) where
  | invalid : BTResult α
  | ok : Metrics α → Frame α → BTResult α

/-- `run_backtest(data, window, entry_z, exit_z, trans_cost)`, lines 44-137.
`logF`, `sqrtF` and `expF` stand for `np.log`, `np.sqrt` and `np.exp`; the
concrete program is the instance `α := ℝ`, `logF := Real.log`,
`sqrtF := Real.sqrt`, `expF := Real.exp`. -/
def run_backtest (logF sqrtF expF : α → α) (df : Frame α)
    (window : ℕ) (entry_z exit_z : α) (trans_cost : α) : BTResult α :=
  let data := df                                    -- data = data.copy()
  let n := data.nrows
  let ls := fun t => ((getCol data colMYRSGD) t).map logF
  let sig := signalCol sqrtF window entry_z exit_z ls
  let strat := strategyRetCol ls sig trans_cost
  let rList := (List.range n).map strat
  if (rList.filterMap id).length < 10 then BTResult.invalid
  else
    let valid := rList.filterMap id
    let sigList := (List.range n).map sig
    let positions := sigList.map (fun s => !(decide (s = 0)))
    let total_return : α := valid.sum
    let cagr : α :=
      if 0 < n then expF (total_return * 252 / (n : α)) - 1 else 0
    let win_rate := winRateOf sigList rList
    let avg_win := avgWinOf sigList rList
    let avg_loss := avgLossOf sigList rList
    let durs := durationsFrom 0 positions
    let avg_duration : α :=
      if 0 < durs.length then listMean (durs.map (fun d => (d : α))) else 0
    let kelly : α :=
      if avg_loss ≠ 0 ∧ 0 < avg_win then
        let b := avg_win / (-avg_loss)
        if 0 < b then (win_rate * b - (1 - win_rate)) / b else 0
      else 0
    let cumL := cumsumSkip 0 rList
    let data2 :=
      setCol (setCol (setCol (setCol (setCol (setCol (setCol (setCol
        (setCol (setCol data colLogSpread ls)
          colMean (rollingMean ls window))
          colStd (rollingStd sqrtF ls window))
          colZscore (zscoreCol sqrtF ls window))
          colSignal (fun t => some ((sig t : ℤ) : α)))
          colSpreadRet (spreadRetCol ls))
          colTradeCost (tradeCostCol sig trans_cost))
          colStrategyRet strat)
          colCumRet (fun t => cumL.getD t none))
          colMYRSGD (getCol data colMYRSGD)
    BTResult.ok
      { total_return := total_return
        cagr := cagr
        sharpe := sharpeOf sqrtF rList
        sortino := sortinoOf sqrtF rList
        max_dd := maxDDOf expF rList
        win_rate := win_rate
        num_trades := numTradesOf positions
        avg_duration := avg_duration
        avg_win := avg_win
        avg_loss := avg_loss
        kelly := kelly } data2

/-- A call of `run_backtest` together with its effect on the caller's frame:
line 45 rebinds `data` to a copy and every later column write targets that
copy, so the argument frame comes back to the caller unchanged. -/
def run_backtest_call (logF sqrtF expF : α → α) (df : Frame α)
    (window : ℕ) (entry_z exit_z trans_cost : α) : BTResult α × Frame α :=
  (run_backtest logF sqrtF expF df window entry_z exit_z trans_cost, df)

/-- The default `trans_cost=0.0002` used by the grid-search calls. -/
def defaultCost : α := 2 / 10000

/-- The sharpe delivered by one grid evaluation: `none` when the bare
invalid dict comes back (no `'sharpe'` float to compare) or the field is
NaN; `some s` exactly when the call produced a `(metrics, data)` pair whose
sharpe is the finite value `s`. -/
def sharpeRes (logF sqrtF expF : α → α) (df : Frame α) (c : ℕ × α × α) :
    Option α :=
  match run_backtest logF sqrtF expF df c.1 c.2.1 c.2.2 defaultCost with
  | BTResult.invalid => none
  | BTResult.ok m _ => m.sharpe

/-- Lines 203-211, the grid-search loop.  The state is
`(best_sharpe, best_params)`, starting at `(-inf, None)`; `-inf` is `⊥` of
`WithBot α` and a finite float compares with it as the coercion does.
`metrics, _ = run_backtest(...)` unpacks a 2-tuple: on the bare one-key dict
of the invalid branch the unpacking raises ValueError, modelled by `none`
aborting the whole loop.  A NaN sharpe fails the `>` test and changes
nothing. -/
def gridLoop (logF sqrtF expF : α → α) (df : Frame α) :
    List (ℕ × α × α) → WithBot α × Option (ℕ × α × α) →
    Option (WithBot α × Option (ℕ × α × α))
  | [], st => some st
  | c :: rest, (bs, bp) =>
      match run_backtest logF sqrtF expF df c.1 c.2.1 c.2.2 defaultCost with
      | BTResult.invalid => none
      | BTResult.ok m _ =>
          match m.sharpe with
          | none => gridLoop logF sqrtF expF df rest (bs, bp)
          | some s =>
              if bs < (s : WithBot α) then
                gridLoop logF sqrtF expF df rest ((s : WithBot α), some c)
              else gridLoop logF sqrtF expF df rest (bs, bp)

/-- The triple nested loop order of lines 205-207: windows outermost, then
entries, then exits. -/
def gridCombos (ws : List ℕ) (ens exs : List α) : List (ℕ × α × α) :=
  ws.flatMap (fun w => ens.flatMap (fun en => exs.map (fun ex => (w, en, ex))))

/-- The whole grid search of lines 203-211. -/
def gridSearch (logF sqrtF expF : α → α) (df : Frame α)
    (ws : List ℕ) (ens exs : List α) :
    Option (WithBot α × Option (ℕ × α × α)) :=
  gridLoop logF sqrtF expF df (gridCombos ws ens exs) (⊥, none)

/-- A column holding the cells of a list (missing outside its rows). -/
def listCol (l : List α) : ℕ → Option α :=
  fun t => l.get? t

/-- A constant price frame with `n` rows, used for concrete evaluations. -/
def constFrame (n : ℕ) (v : α) : Frame α :=
  ⟨n, [(colMYRSGD, fun t => if t < n then some v else none)]⟩

/-- A concrete signal path used by witnesses: long on day 0, then short. -/
def sigToy : ℕ → ℤ :=
  fun t => if t = 0 then 1 else -1

/-- A concrete log-spread column used by witnesses. -/
def lsToy : ℕ → Option ℚ :=
  fun t => some ((t : ℚ))

/-! ### Theorems -/

theorem nmul_none_left (y : Option α) : nmul none y = none := by
  cases y <;> rfl

theorem ndiv_none_right (x : Option α) : ndiv x none = none := by
  cases x <;> rfl

theorem nsub_none_left (y : Option α) : nsub none y = none := by
  cases y <;> rfl

theorem ndiv_none_left (y : Option α) : ndiv none y = none := by
  cases y <;> rfl

/-- C1 (amended).  The signal is a pointwise function of the zscore cell:
0 wherever `|z| < exit` (the exit mask is applied last), otherwise +1 where
`z < -entry`, otherwise -1 where `z > entry`, and otherwise 0 — the
initial value of the column, not the previous period's signal (line 59's
`ffill().fillna(0)` acts on a column without missing values and changes
nothing).  A NaN zscore also leaves 0.  On the z-score path
[2.5, -2.5, 0.5, -0.5, 0.1] with entry 2.0 and exit 0.5 the produced signal
path is therefore [-1, 1, 0, 0, 0]. -/
theorem c1_signal_pointwise_and_path :
    (∀ E X z : α, |z| < X → signalAt E X (some z) = 0)
    ∧ (∀ E X z : α, ¬ |z| < X → z < -E → signalAt E X (some z) = 1)
    ∧ (∀ E X z : α, ¬ |z| < X → ¬ z < -E → z > E → signalAt E X (some z) = -1)
    ∧ (∀ E X z : α, ¬ |z| < X → ¬ z < -E → ¬ z > E → signalAt E X (some z) = 0)
    ∧ (∀ E X : α, signalAt E X (none : Option α) = 0)
    ∧ signalsFromZ (2 : ℚ) (1/2)
        ([5/2, -(5/2), 1/2, -(1/2), 1/10].map some) = [-1, 1, 0, 0, 0] := by
  refine ⟨?_, ?_, ?_, ?_, ?_, ?_⟩
  · intro E X z h; simp [signalAt, h]
  · intro E X z h1 h2; simp [signalAt, h1, h2]
  · intro E X z h1 h2 h3; simp [signalAt, h1, h2, h3]
  · intro E X z h1 h2 h3; simp [signalAt, h1, h2, h3]
  · intro E X; rfl
  · exact of_decide_eq_true (by with_unfolding_all rfl)

/-- Witness for C1's amended theorem: z = 1 with entry 2 and exit 0.5 sits
between the bands and the signal is reset to 0 (not held). -/
theorem c1_signal_pointwise_witness : signalAt (2 : ℚ) (1/2) (some 1) = 0 :=
  (c1_signal_pointwise_and_path (α := ℚ)).2.2.2.1 2 (1/2) 1
    (by norm_num) (by norm_num) (by norm_num)

/-- Counterexample to C1 as stated: on the claim's own z-score path the code
produces [-1, 1, 0, 0, 0], not the claimed [-1, 1, 1, 1, 0] — rows 2 and 3
fall between the bands and are reset to 0 instead of holding the previous
signal. -/
theorem c1_path_counterexample :
    signalsFromZ (2 : ℚ) (1/2) ([5/2, -(5/2), 1/2, -(1/2), 1/10].map some)
        = [-1, 1, 0, 0, 0]
    ∧ signalsFromZ (2 : ℚ) (1/2) ([5/2, -(5/2), 1/2, -(1/2), 1/10].map some)
        ≠ [-1, 1, 1, 1, 0] := by
  exact ⟨of_decide_eq_true (by with_unfolding_all rfl),
    of_decide_eq_true (by with_unfolding_all rfl)⟩

/-- C7 (confirmed).  For `t ≥ 1`,
`strategy_ret[t] = signal[t-1] * (log_spread[t] - log_spread[t-1]) -
trade_cost[t-1]`, where the missing cost cell of row 0 enters as 0 via
`fillna(0)` when `t = 1`. -/
theorem c7_one_period_lag (ls : ℕ → Option α) (sig : ℕ → ℤ) (c : α)
    (t : ℕ) (a b : α) (ht : 1 ≤ t) (ha : ls t = some a) (hb : ls (t - 1) = some b) :
    strategyRetCol ls sig c t =
      some (((sig (t - 1) : ℤ) : α) * (a - b) -
        (if t = 1 then 0 else ((|sig (t - 1) - sig (t - 2)| : ℤ) : α) * c)) := by
  have ht0 : t ≠ 0 := by omega
  unfold strategyRetCol spreadRetCol shiftO tradeCostCol
  simp only [if_neg ht0, ha, hb]
  by_cases h1 : t = 1
  · subst h1
    simp [nmul, nsub, fill0]
  · have h10 : t - 1 ≠ 0 := by omega
    have h2 : t - 1 - 1 = t - 2 := by omega
    simp [nmul, nsub, fill0, h10, h1, h2]

/-- Witness for C7 at `t = 2`: yesterday's position -1 times today's spread
move 1, minus yesterday's cost |(-1) - 1| * 0.01. -/
theorem c7_lag_witness :
    strategyRetCol lsToy sigToy (1/100) 2 = some (-(51/50)) := by
  have h := c7_one_period_lag lsToy sigToy (1/100) 2 2 1
    (by norm_num) (by with_unfolding_all rfl) (by with_unfolding_all rfl)
  rw [h]
  with_unfolding_all rfl

/-- C8 (confirmed).  For every signal path, cost rate `C > 0` and row
`t ≥ 1` (row 0 of the diff is missing), the cost cell is
`|signal[t] - signal[t-1]| * C`: it is nonnegative, strictly positive
exactly when the signal changed at `t`, and a switch from +1 to -1 costs
`2C`. -/
theorem c8_trade_cost_sign (sig : ℕ → ℤ) (c : α) (hc : 0 < c)
    (t : ℕ) (ht : 1 ≤ t) :
    ∃ v : α, tradeCostCol sig c t = some v ∧ 0 ≤ v ∧
      (0 < v ↔ sig t ≠ sig (t - 1)) ∧
      (sig (t - 1) = 1 → sig t = -1 → v = 2 * c) := by
  have ht0 : t ≠ 0 := by omega
  refine ⟨((|sig t - sig (t - 1)| : ℤ) : α) * c,
    by simp [tradeCostCol, ht0], ?_, ?_, ?_⟩
  · exact mul_nonneg (by exact_mod_cast abs_nonneg _) hc.le
  · constructor
    · intro hv hEq
      rw [hEq, sub_self, abs_zero] at hv
      simp at hv
    · intro hne
      have hz : sig t - sig (t - 1) ≠ 0 := sub_ne_zero.mpr hne
      have : (0 : ℤ) < |sig t - sig (t - 1)| := abs_pos.mpr hz
      exact mul_pos (by exact_mod_cast this) hc
  · intro h1 h2
    rw [h2, h1]
    norm_num

/-- Witness for C8 at `t = 1` on a path that flips from +1 to -1: the cost
cell is 2 * 0.01 > 0. -/
theorem c8_cost_witness :
    ∃ v : ℚ, tradeCostCol sigToy (1/100) 1 = some v ∧ 0 ≤ v ∧
      (0 < v ↔ sigToy 1 ≠ sigToy 0) ∧
      (sigToy 0 = 1 → sigToy 1 = -1 → v = 2 * (1/100)) :=
  c8_trade_cost_sign sigToy (1/100) (by norm_num) 1 (by norm_num)

/-- Helper: a defined `.std()` forces at least two valid cells and hence a
defined `.mean()`. -/
theorem meanOf_of_std_some (sqrtF : α → α) (r : List (Option α)) (s : α)
    (h : stdOfList sqrtF (r.filterMap id) = some s) :
    meanOf r = some (listMean (r.filterMap id)) := by
  unfold stdOfList at h
  by_cases hl : (r.filterMap id).length < 2
  · rw [if_pos hl] at h; exact absurd h (by simp)
  · unfold meanOf
    rw [if_neg (by omega)]

/-- C5 (amended).  Sharpe follows the claimed rule: the formula
`mean/std * sqrt 252` when the std is a nonzero value, and 0 when the std
is 0.  Sortino uses the std of the strictly negative returns in the same
two branches, but when that downside std is undefined (fewer than two
negative returns, e.g. none at all) the Python test `NaN != 0` succeeds and
the result is NaN — not the claimed 0. -/
theorem c5_sharpe_sortino_branches (sqrtF : α → α) :
    (∀ r : List (Option α), stdOf sqrtF r = some 0 → sharpeOf sqrtF r = some 0)
    ∧ (∀ (r : List (Option α)) (s : α), stdOf sqrtF r = some s → s ≠ 0 →
        ∃ m, meanOf r = some m ∧ sharpeOf sqrtF r = some (m / s * sqrtF 252))
    ∧ (∀ r : List (Option α), downStdOf sqrtF r = some 0 →
        sortinoOf sqrtF r = some 0)
    ∧ (∀ r : List (Option α), downStdOf sqrtF r = none →
        sortinoOf sqrtF r = none)
    ∧ (∀ (r : List (Option α)) (s : α), downStdOf sqrtF r = some s → s ≠ 0 →
        ∃ m, meanOf r = some m ∧ sortinoOf sqrtF r = some (m / s * sqrtF 252)) := by
  refine ⟨?_, ?_, ?_, ?_, ?_⟩
  · intro r h
    unfold sharpeOf
    rw [h]
    simp [nne0]
  · intro r s h hs
    refine ⟨listMean (r.filterMap id), meanOf_of_std_some sqrtF r s h, ?_⟩
    unfold sharpeOf
    rw [h, meanOf_of_std_some sqrtF r s h]
    simp [nne0, hs, ndiv, nmul]
  · intro r h
    unfold sortinoOf
    rw [h]
    simp [nne0]
  · intro r h
    unfold sortinoOf
    rw [h]
    simp [nne0, ndiv_none_right, nmul_none_left]
  · intro r s h hs
    have hm : meanOf r = some (listMean (r.filterMap id)) := by
      unfold downStdOf at h
      unfold stdOfList at h
      by_cases hl : ((r.filterMap id).filter (fun x => decide (x < 0))).length < 2
      · rw [if_pos hl] at h; exact absurd h (by simp)
      · have h2 : 2 ≤ ((r.filterMap id).filter (fun x => decide (x < 0))).length := by
          omega
        have hle := List.length_filter_le (fun x => decide (x < 0)) (r.filterMap id)
        unfold meanOf
        rw [if_neg (by omega)]
    refine ⟨listMean (r.filterMap id), hm, ?_⟩
    unfold sortinoOf
    rw [h, hm]
    simp [nne0, hs, ndiv, nmul]

/-- Witness for C5's amended theorem: ten zero returns have std 0 and the
sharpe is 0. -/
theorem c5_branches_witness :
    sharpeOf (fun x : ℚ => x) [some 0, some 0] = some 0 :=
  (c5_sharpe_sortino_branches (fun x : ℚ => x)).1 [some 0, some 0]
    (by with_unfolding_all rfl)

/-- Counterexample to C5 as stated: the return path [1, 2] has no negative
return, its downside std is NaN, and the sortino computed by lines 81-82 is
NaN — it is not the claimed 0. -/
theorem c5_sortino_nan_counterexample :
    downStdOf Real.sqrt [some (1:ℝ), some 2] = none
    ∧ sortinoOf Real.sqrt [some (1:ℝ), some 2] ≠ some 0 := by
  have hfil : (([(1:ℝ), 2]).filter (fun x => decide (x < 0))) = [] := by
    rw [List.filter_eq_nil_iff]
    intro a ha
    simp only [List.mem_cons, List.mem_singleton] at ha
    rcases ha with h | h | h
    · subst h; simp only [decide_eq_true_eq]; norm_num
    · subst h; simp only [decide_eq_true_eq]; norm_num
    · simp at h
  have hvalid : (([some (1:ℝ), some 2] : List (Option ℝ)).filterMap id) = [1, 2] := by
    simp [List.filterMap]
  have hd : downStdOf Real.sqrt [some (1:ℝ), some 2] = none := by
    unfold downStdOf
    rw [hvalid, hfil]
    rfl
  refine ⟨hd, ?_⟩
  unfold sortinoOf
  rw [hd]
  simp [nne0, ndiv_none_right, nmul_none_left]

/-- Helper: one step of `cumKeysFrom`. -/
theorem cumKeysFrom_cons (k : ℕ) (s : ℤ) (ss : List ℤ) :
    cumKeysFrom k (s :: ss)
      = (if s = 0 then k else k + 1) :: cumKeysFrom (if s = 0 then k else k + 1) ss := rfl

/-- Helper: over keys produced by the running nonzero count, the groupby
sums are exactly the per-nonzero-row segment sums. -/
theorem groupSumsFrom_cumKeys (ss : List ℤ) :
    ∀ (vs : List (Option α)) (k : ℕ) (acc : α),
      groupSumsFrom acc k ((cumKeysFrom k ss).zip vs) = sigSegFrom acc ss vs := by
  induction ss with
  | nil =>
      intro vs k acc
      cases vs <;> rfl
  | cons s ss ih =>
      intro vs k acc
      cases vs with
      | nil =>
          rw [cumKeysFrom_cons, List.zip_nil_right]
          rfl
      | cons v vs =>
          rw [cumKeysFrom_cons, List.zip_cons_cons]
          by_cases hs : s = 0
          · rw [if_pos hs]
            have e1 : groupSumsFrom acc k ((k, v) :: (cumKeysFrom k ss).zip vs)
                = groupSumsFrom (acc + fill0 v) k ((cumKeysFrom k ss).zip vs) := by
              simp [groupSumsFrom]
            have e2 : sigSegFrom acc (s :: ss) (v :: vs)
                = sigSegFrom (acc + fill0 v) ss vs := by
              simp [sigSegFrom, hs]
            rw [e1, e2]
            exact ih vs k (acc + fill0 v)
          · rw [if_neg hs]
            have e1 : groupSumsFrom acc k ((k + 1, v) :: (cumKeysFrom (k + 1) ss).zip vs)
                = acc :: groupSumsFrom (fill0 v) (k + 1) ((cumKeysFrom (k + 1) ss).zip vs) := by
              simp [groupSumsFrom]
            have e2 : sigSegFrom acc (s :: ss) (v :: vs)
                = acc :: sigSegFrom (fill0 v) ss vs := by
              simp [sigSegFrom, hs]
            rw [e1, e2, ih vs (k + 1) (fill0 v)]

/-- Helper: the code's `groupby(positions.cumsum()).sum()` equals the
per-nonzero-row segmentation. -/
theorem tradeReturnsAll_eq_sigSeg (sig : List ℤ) (r : List (Option α)) :
    tradeReturnsAllOf sig r = sigSegSums sig r := by
  cases sig with
  | nil => cases r <;> rfl
  | cons s ss =>
      cases r with
      | nil =>
          unfold tradeReturnsAllOf
          rw [cumKeysFrom_cons, List.zip_nil_right]
          rfl
      | cons v vs =>
          unfold tradeReturnsAllOf
          rw [cumKeysFrom_cons, List.zip_cons_cons]
          show groupSumsFrom (fill0 v) (if s = 0 then 0 else 0 + 1)
            ((cumKeysFrom (if s = 0 then 0 else 0 + 1) ss).zip vs) = _
          rw [groupSumsFrom_cumKeys ss vs (if s = 0 then 0 else 0 + 1) (fill0 v)]
          rfl

/-- C4 (amended).  The code does not group returns by maximal nonzero runs:
`positions.cumsum()` increments at every nonzero-signal row, so each
nonzero-signal row opens its own group, which also absorbs the flat rows
that follow it (plus one leading group of initial flat rows).  winRate,
avgWin and avgLoss are computed over the nonzero such group sums, and
avgLoss is -1 exactly when no negative group sum exists. -/
theorem c4_row_grouping_and_loss_default :
    (∀ (sig : List ℤ) (r : List (Option α)),
        tradeReturnsAllOf sig r = sigSegSums sig r)
    ∧ (∀ (sig : List ℤ) (r : List (Option α)),
        (∀ x ∈ tradeReturnsOf sig r, ¬ x < 0) → avgLossOf sig r = -1) := by
  constructor
  · exact fun sig r => tradeReturnsAll_eq_sigSeg sig r
  · intro sig r h
    have hfil : (tradeReturnsOf sig r).filter (fun x => decide (x < 0)) = [] := by
      rw [List.filter_eq_nil_iff]
      intro a ha
      simpa using h a ha
    simp [avgLossOf, hfil]

/-- Witness for C4's amended theorem: a single one-row winning trade has no
losing trade, and avgLoss falls back to -1. -/
theorem c4_grouping_witness : avgLossOf [1] [some (1:ℚ)] = -1 :=
  c4_row_grouping_and_loss_default.2 [1] [some 1]
    (of_decide_eq_true (by with_unfolding_all rfl))

/-- Counterexample to C4 as stated: the signal path [1, 1] is one maximal
run with net return 5 + (-2) = 3 > 0, so the claim's winRate is 1; the code
groups the two rows separately (cumsum keys 1 and 2), sees sums 5 and -2,
and reports winRate 1/2. -/
theorem c4_winrate_counterexample :
    winRateOf [1, 1] [some (5:ℚ), some (-2)] = 1/2
    ∧ specWinRate [1, 1] [some (5:ℚ), some (-2)] = 1
    ∧ (1/2 : ℚ) ≠ 1 :=
  ⟨of_decide_eq_true (by with_unfolding_all rfl),
   of_decide_eq_true (by with_unfolding_all rfl),
   by norm_num⟩

theorem ndiv_zero_right (x : Option α) : ndiv x (some 0) = none := by
  cases x with
  | none => rfl
  | some a => simp [ndiv]

theorem length_cumsumSkip (r : List (Option α)) :
    ∀ acc : α, (cumsumSkip acc r).length = r.length := by
  induction r with
  | nil => intro acc; rfl
  | cons x xs ih => intro acc; cases x <;> simp [cumsumSkip, ih]

theorem foldl_min_le_init (l : List α) : ∀ x : α, l.foldl min x ≤ x := by
  induction l with
  | nil => intro x; exact le_refl x
  | cons y ys ih =>
      intro x
      calc ys.foldl min (min x y) ≤ min x y := ih (min x y)
        _ ≤ x := min_le_left x y

/-- C9 (confirmed).  The max-drawdown of lines 85-88 is never positive: the
wealth index is an exponential, hence positive, its running maximum starts
at the first wealth value, so the first drawdown cell is exactly 0, and the
column minimum is at most that. -/
theorem c9_max_drawdown_nonpos (expF : α → α) (hpos : ∀ x : α, 0 < expF x)
    (r : List (Option α)) (hne : r ≠ []) (d : α)
    (hd : maxDDOf expF r = some d) : d ≤ 0 := by
  unfold maxDDOf at hd
  cases hw : (cumsumSkip (0:α) r).map (fun c => expF (fill0 c)) with
  | nil =>
      exfalso
      have hlen := congrArg List.length hw
      rw [List.length_map, length_cumsumSkip] at hlen
      exact hne (List.length_eq_zero.mp hlen)
  | cons x xs =>
      rw [hw] at hd
      have hx : 0 < x := by
        have hmem : x ∈ (cumsumSkip (0:α) r).map (fun c => expF (fill0 c)) := by
          rw [hw]; exact List.mem_cons_self x xs
        rcases List.mem_map.mp hmem with ⟨c, _, hc⟩
        rw [← hc]; exact hpos _
      have hmin : listMin (((x :: xs).zip (cummax (x :: xs))).map
            (fun p => p.1 / p.2 - 1))
          = some (((xs.zip (cummaxFrom x xs)).map
            (fun p => p.1 / p.2 - 1)).foldl min (x / x - 1)) := rfl
      rw [hmin] at hd
      have hdval := Option.some.inj hd
      rw [← hdval]
      calc ((xs.zip (cummaxFrom x xs)).map (fun p => p.1 / p.2 - 1)).foldl min
            (x / x - 1)
          ≤ x / x - 1 := foldl_min_le_init _ _
        _ = 0 := by rw [div_self hx.ne']; ring

/-- Witness for C9: the single-row all-NaN return path has wealth exp 0,
zero drawdown, and the theorem yields 0 ≤ 0. -/
theorem c9_drawdown_witness : (0:ℚ) ≤ 0 :=
  c9_max_drawdown_nonpos (fun _ => 1) (fun _ => by norm_num) [none]
    (by simp) 0 (of_decide_eq_true (by with_unfolding_all rfl))

omit [LinearOrderedField α] in
theorem seqOpt_none_of_mem (l : List (Option α))
    (h : (none : Option α) ∈ l) : seqOpt l = none := by
  induction l with
  | nil => simp at h
  | cons x xs ih =>
      cases x with
      | none => rfl
      | some v =>
          have hx : (none : Option α) ∈ xs := by
            rcases List.mem_cons.mp h with h1 | h1
            · exact absurd h1 (by simp)
            · exact h1
          show (seqOpt xs).map _ = none
          rw [ih hx]
          rfl

omit [LinearOrderedField α] in
theorem seqOpt_replicate_some (w : ℕ) (c : α) :
    seqOpt (List.replicate w (some c)) = some (List.replicate w c) := by
  induction w with
  | zero => rfl
  | succ k ih =>
      rw [List.replicate_succ, List.replicate_succ]
      show (seqOpt (List.replicate k (some c))).map _ = _
      rw [ih]
      rfl

theorem listMean_replicate (w : ℕ) (hw : w ≠ 0) (c : α) :
    listMean (List.replicate w c) = c := by
  unfold listMean
  rw [List.sum_replicate, List.length_replicate, nsmul_eq_mul]
  exact mul_div_cancel_left₀ c (by exact_mod_cast hw)

theorem sampleVar_replicate (w : ℕ) (hw : w ≠ 0) (c : α) :
    sampleVar (List.replicate w c) = 0 := by
  unfold sampleVar
  simp only [listMean_replicate w hw c]
  have hmap : (List.replicate w c).map (fun x => (x - c) ^ 2)
      = List.replicate w 0 := by
    rw [List.map_replicate]
    simp
  rw [hmap, List.sum_replicate]
  simp

omit [LinearOrderedField α] in
theorem windowAt_replicate (n w t : ℕ) (c : α) (hw : w ≤ t + 1) (ht : t < n) :
    windowAt (listCol (List.replicate n c)) w t = some (List.replicate w c) := by
  unfold windowAt
  rw [if_neg (by omega)]
  have hcell : ∀ i ∈ List.range w,
      listCol (List.replicate n c) (t + 1 - w + i) = some c := by
    intro i hi
    rw [List.mem_range] at hi
    unfold listCol
    rw [List.get?_eq_getElem?, List.getElem?_replicate, if_pos (by omega)]
  have hmap : (List.range w).map (fun i => listCol (List.replicate n c) (t + 1 - w + i))
      = List.replicate w (some c) := by
    calc (List.range w).map (fun i => listCol (List.replicate n c) (t + 1 - w + i))
        = (List.range w).map (fun _ => some c) := List.map_congr_left hcell
      _ = List.replicate w (some c) := by
          rw [List.map_const', List.length_range]
  rw [hmap]
  exact seqOpt_replicate_some w c

/-- C6 (amended).  A NaN zscore (warm-up, a missing cell in the window, or a
flat window of zero std) matches no entry or exit mask and leaves the signal
at its initial 0 — a reset to flat, not a hold of the previous signal.  In
particular on a constant series the signal is 0 at every row. -/
theorem c6_flat_window_resets_signal :
    (∀ (sqrtF : α → α) (w : ℕ) (E X : α) (ls : ℕ → Option α) (t : ℕ),
        zscoreCol sqrtF ls w t = none → signalCol sqrtF w E X ls t = 0)
    ∧ (∀ sqrtF : α → α, sqrtF 0 = 0 →
        ∀ (n : ℕ) (c : α) (w : ℕ) (E X : α) (t : ℕ),
          signalCol sqrtF w E X (listCol (List.replicate n c)) t = 0) := by
  have hz0 : ∀ (sqrtF : α → α) (w : ℕ) (E X : α) (ls : ℕ → Option α) (t : ℕ),
      zscoreCol sqrtF ls w t = none → signalCol sqrtF w E X ls t = 0 := by
    intro sqrtF w E X ls t h
    unfold signalCol
    rw [h]
    rfl
  refine ⟨hz0, ?_⟩
  intro sqrtF hs n c w E X t
  apply hz0
  unfold zscoreCol
  by_cases hw1 : w ≤ 1
  · have hstd : rollingStd sqrtF (listCol (List.replicate n c)) w t = none := by
      unfold rollingStd; rw [if_pos hw1]
    rw [hstd]; exact ndiv_none_right _
  · by_cases hwt : t + 1 < w
    · have hwin : windowAt (listCol (List.replicate n c)) w t = none := by
        unfold windowAt; rw [if_pos hwt]
      have hstd : rollingStd sqrtF (listCol (List.replicate n c)) w t = none := by
        unfold rollingStd; rw [if_neg hw1, hwin]; rfl
      rw [hstd]; exact ndiv_none_right _
    · by_cases htn : t < n
      · have hwin := windowAt_replicate n w t c (by omega) htn
        have hstd : rollingStd sqrtF (listCol (List.replicate n c)) w t = some 0 := by
          unfold rollingStd
          rw [if_neg hw1, hwin]
          simp only [Option.map_some']
          rw [sampleVar_replicate w (by omega) c, hs]
        rw [hstd]; exact ndiv_zero_right _
      · have hwin : windowAt (listCol (List.replicate n c)) w t = none := by
          unfold windowAt
          rw [if_neg hwt]
          apply seqOpt_none_of_mem
          refine List.mem_map.mpr ⟨w - 1, List.mem_range.mpr (by omega), ?_⟩
          have hidx : t + 1 - w + (w - 1) = t := by omega
          rw [hidx]
          unfold listCol
          rw [List.get?_eq_getElem?, List.getElem?_replicate, if_neg (by omega)]
        have hstd : rollingStd sqrtF (listCol (List.replicate n c)) w t = none := by
          unfold rollingStd; rw [if_neg hw1, hwin]; rfl
        rw [hstd]; exact ndiv_none_right _

/-- Witness for C6's amended theorem: a constant series of four 5s with
window 3 gives a flat signal at row 2. -/
theorem c6_flat_witness :
    signalCol (fun x : ℚ => x) 3 1 (1/2) (listCol (List.replicate 4 (5:ℚ))) 2 = 0 :=
  c6_flat_window_resets_signal.2 (fun x => x) rfl 4 5 3 1 (1/2) 2

/-- Counterexample to C6 as stated: on the log-spread path [2, 0, 0, 0, 0]
with window 4, entry 1/4 and exit 1/8, row 3 enters long (zscore -1/2), and
row 4 has a flat window (std 0, NaN zscore); the claim says the signal holds
the previous +1, but the code resets it to 0. -/
theorem c6_hold_counterexample :
    (List.range 5).map (signalCol Real.sqrt 4 (1/4) (1/8)
        (listCol [2, 0, 0, 0, 0])) = [0, 0, 0, 1, 0]
    ∧ ([0, 0, 0, 1, 0] : List ℤ) ≠ [0, 0, 0, 1, 1] := by
  constructor
  · have h4 : ¬ (4:ℕ) ≤ 1 := by norm_num
    have warm : ∀ t : ℕ, t + 1 < 4 →
        signalCol Real.sqrt 4 (1/4) (1/8) (listCol [(2:ℝ), 0, 0, 0, 0]) t = 0 := by
      intro t ht
      unfold signalCol zscoreCol rollingStd windowAt
      rw [if_neg h4, if_pos ht]
      simp [ndiv_none_right, signalAt]
    have hwin3 : windowAt (listCol [(2:ℝ), 0, 0, 0, 0]) 4 3 = some [2, 0, 0, 0] := by
      unfold windowAt
      rw [if_neg (by norm_num)]
      rfl
    have hmean3 : listMean [(2:ℝ), 0, 0, 0] = 1/2 := by
      unfold listMean
      norm_num
    have hvar3 : sampleVar [(2:ℝ), 0, 0, 0] = 1 := by
      unfold sampleVar
      simp only [hmean3, List.map_cons, List.map_nil, List.sum_cons, List.sum_nil,
        List.length_cons, List.length_nil]
      norm_num
    have hstd3 : rollingStd Real.sqrt (listCol [(2:ℝ), 0, 0, 0, 0]) 4 3 = some 1 := by
      unfold rollingStd
      rw [if_neg h4, hwin3]
      simp only [Option.map_some']
      rw [hvar3, Real.sqrt_one]
    have hmr3 : rollingMean (listCol [(2:ℝ), 0, 0, 0, 0]) 4 3 = some (1/2) := by
      unfold rollingMean
      rw [hwin3]
      simp only [Option.map_some']
      rw [hmean3]
    have hz3 : zscoreCol Real.sqrt (listCol [(2:ℝ), 0, 0, 0, 0]) 4 3
        = some (-(1/2)) := by
      unfold zscoreCol
      rw [hstd3, hmr3]
      have hcell : listCol [(2:ℝ), 0, 0, 0, 0] 3 = some 0 := rfl
      rw [hcell]
      show ndiv (nsub (some (0:ℝ)) (some (1/2))) (some 1) = some (-(1/2))
      norm_num [nsub, ndiv]
    have habs : |(-(1/2):ℝ)| = 1/2 := by
      rw [abs_neg]
      exact abs_of_pos (by norm_num)
    have hsig3 : signalCol Real.sqrt 4 (1/4) (1/8) (listCol [(2:ℝ), 0, 0, 0, 0]) 3
        = 1 := by
      unfold signalCol
      rw [hz3]
      simp only [signalAt]
      rw [habs]
      norm_num
    have hwin4 : windowAt (listCol [(2:ℝ), 0, 0, 0, 0]) 4 4 = some [0, 0, 0, 0] := by
      unfold windowAt
      rw [if_neg (by norm_num)]
      rfl
    have hmean4 : listMean [(0:ℝ), 0, 0, 0] = 0 := by
      unfold listMean
      norm_num
    have hvar4 : sampleVar [(0:ℝ), 0, 0, 0] = 0 := by
      unfold sampleVar
      simp only [hmean4, List.map_cons, List.map_nil, List.sum_cons, List.sum_nil,
        List.length_cons, List.length_nil]
      norm_num
    have hstd4 : rollingStd Real.sqrt (listCol [(2:ℝ), 0, 0, 0, 0]) 4 4 = some 0 := by
      unfold rollingStd
      rw [if_neg h4, hwin4]
      simp only [Option.map_some']
      rw [hvar4, Real.sqrt_zero]
    have hz4 : zscoreCol Real.sqrt (listCol [(2:ℝ), 0, 0, 0, 0]) 4 4 = none := by
      unfold zscoreCol
      rw [hstd4]
      exact ndiv_zero_right _
    have hsig4 : signalCol Real.sqrt 4 (1/4) (1/8) (listCol [(2:ℝ), 0, 0, 0, 0]) 4
        = 0 := by
      unfold signalCol
      rw [hz4]
      rfl
    have hr : List.range 5 = [0, 1, 2, 3, 4] := rfl
    rw [hr]
    simp only [List.map_cons, List.map_nil]
    rw [warm 0 (by norm_num), warm 1 (by norm_num), warm 2 (by norm_num), hsig3, hsig4]
  · decide

/-- Helper: any frame with fewer than 10 rows has fewer than 10 valid
strategy returns, so `run_backtest` takes the sentinel branch of lines
70-71. -/
theorem run_backtest_invalid_of_short (logF sqrtF expF : α → α) (df : Frame α)
    (w : ℕ) (en ex c : α) (h : df.nrows < 10) :
    run_backtest logF sqrtF expF df w en ex c = BTResult.invalid := by
  simp only [run_backtest]
  split
  · rfl
  · next hcond =>
      exfalso
      apply hcond
      refine lt_of_le_of_lt ?_ h
      refine le_trans (List.length_filterMap_le _ _) ?_
      rw [List.length_map, List.length_range]

/-- C2 (code bug).  On a 5-row frame `run_backtest` does return the bare
sentinel dict (modelled `invalid`), but the grid loop's unpacking
`metrics, _ = run_backtest(...)` then raises ValueError on that one-key
dict, so the driver crashes instead of deprioritising the combination. -/
theorem c2_sentinel_then_grid_crash :
    run_backtest Real.log Real.sqrt Real.exp (constFrame 5 1) 30 (3/2) (1/2)
        (2/10000) = BTResult.invalid
    ∧ gridLoop Real.log Real.sqrt Real.exp (constFrame 5 1)
        [(30, 3/2, 1/2)] (⊥, none) = none := by
  constructor
  · exact run_backtest_invalid_of_short Real.log Real.sqrt Real.exp
      (constFrame 5 1) 30 (3/2) (1/2) (2/10000) (by norm_num [constFrame])
  · have hinv := run_backtest_invalid_of_short Real.log Real.sqrt Real.exp
      (constFrame 5 1) 30 (3/2) (1/2) defaultCost (by norm_num [constFrame])
    simp only [gridLoop, hinv]

/-- Helper: a delivered sharpe means the call returned a full
`(metrics, data)` pair with that sharpe. -/
theorem sharpeRes_some_elim (logF sqrtF expF : α → α) (df : Frame α)
    (c : ℕ × α × α) (s : α) (h : sharpeRes logF sqrtF expF df c = some s) :
    ∃ m fr, run_backtest logF sqrtF expF df c.1 c.2.1 c.2.2 defaultCost
        = BTResult.ok m fr ∧ m.sharpe = some s := by
  unfold sharpeRes at h
  cases hr : run_backtest logF sqrtF expF df c.1 c.2.1 c.2.2 defaultCost with
  | invalid => rw [hr] at h; exact absurd h (by simp)
  | ok m fr => rw [hr] at h; exact ⟨m, fr, rfl, h⟩

/-- Helper: the invariant of the grid fold.  Starting from a finite best
`(v, q)`, either nothing beats `v` and the state survives, or the loop ends
on the first combination of a maximal sharpe, strictly above every earlier
one and at least every later one. -/
theorem gridLoop_select (logF sqrtF expF : α → α) (df : Frame α)
    (sh : ℕ × α × α → α) :
    ∀ (l : List (ℕ × α × α)) (v : α) (q : ℕ × α × α),
      (∀ c ∈ l, sharpeRes logF sqrtF expF df c = some (sh c)) →
      (gridLoop logF sqrtF expF df l ((v : WithBot α), some q)
          = some ((v : WithBot α), some q) ∧ ∀ c ∈ l, sh c ≤ v)
      ∨ (∃ pre c post, l = pre ++ c :: post
          ∧ gridLoop logF sqrtF expF df l ((v : WithBot α), some q)
              = some (((sh c : α) : WithBot α), some c)
          ∧ v < sh c ∧ (∀ x ∈ pre, sh x < sh c) ∧ (∀ x ∈ post, sh x ≤ sh c)) := by
  intro l
  induction l with
  | nil =>
      intro v q hok
      left
      exact ⟨rfl, by simp⟩
  | cons c0 rest ih =>
      intro v q hok
      obtain ⟨m, fr, hrun, hsh⟩ := sharpeRes_some_elim logF sqrtF expF df c0 (sh c0)
        (hok c0 (List.mem_cons_self c0 rest))
      have hrest : ∀ c ∈ rest, sharpeRes logF sqrtF expF df c = some (sh c) :=
        fun c hc => hok c (List.mem_cons_of_mem c0 hc)
      have hstep : gridLoop logF sqrtF expF df (c0 :: rest) ((v : WithBot α), some q)
          = if (v : WithBot α) < ((sh c0 : α) : WithBot α) then
              gridLoop logF sqrtF expF df rest (((sh c0 : α) : WithBot α), some c0)
            else gridLoop logF sqrtF expF df rest ((v : WithBot α), some q) := by
        simp only [gridLoop, hrun, hsh]
      by_cases hv : v < sh c0
      · have hv' : (v : WithBot α) < ((sh c0 : α) : WithBot α) := by exact_mod_cast hv
        rw [hstep, if_pos hv']
        rcases ih (sh c0) c0 hrest with ⟨heq, hle⟩ |
          ⟨pre, c, post, hsplit, heq, hlt, hpre, hpost⟩
        · right
          exact ⟨[], c0, rest, rfl, heq, hv, by simp, hle⟩
        · right
          refine ⟨c0 :: pre, c, post, by rw [hsplit]; rfl, heq,
            lt_trans hv hlt, ?_, hpost⟩
          intro x hx
          rcases List.mem_cons.mp hx with h1 | h1
          · rw [h1]; exact hlt
          · exact hpre x h1
      · have hv' : ¬ (v : WithBot α) < ((sh c0 : α) : WithBot α) := by
          intro hcon
          exact hv (by exact_mod_cast hcon)
        rw [hstep, if_neg hv']
        rcases ih v q hrest with ⟨heq, hle⟩ |
          ⟨pre, c, post, hsplit, heq, hlt, hpre, hpost⟩
        · left
          refine ⟨heq, ?_⟩
          intro x hx
          rcases List.mem_cons.mp hx with h1 | h1
          · rw [h1]; exact not_lt.mp hv
          · exact hle x h1
        · right
          refine ⟨c0 :: pre, c, post, by rw [hsplit]; rfl, heq, hlt, ?_, hpost⟩
          intro x hx
          rcases List.mem_cons.mp hx with h1 | h1
          · rw [h1]; exact lt_of_le_of_lt (not_lt.mp hv) hlt
          · exact hpre x h1

/-- C3 (amended).  When every grid combination returns a full
`(metrics, data)` pair (at least 10 valid returns, finite sharpe `sh c`),
the loop of lines 203-211 selects the first combination, in window/entry/
exit iteration order, whose sharpe attains the maximum: every earlier
combination has a strictly smaller sharpe (strict `>` comparison) and no
combination a larger one.  A single-combination grid in particular returns
that combination.  When a combination returns the -inf sentinel instead,
the unpacking crashes and nothing is selected (see the counterexample). -/
theorem c3_grid_first_seen_argmax (logF sqrtF expF : α → α) (df : Frame α)
    (ws : List ℕ) (ens exs : List α) (sh : ℕ × α × α → α)
    (hok : ∀ c ∈ gridCombos ws ens exs,
      sharpeRes logF sqrtF expF df c = some (sh c))
    (hne : gridCombos ws ens exs ≠ []) :
    ∃ pre c post, gridCombos ws ens exs = pre ++ c :: post
      ∧ gridSearch logF sqrtF expF df ws ens exs
          = some (((sh c : α) : WithBot α), some c)
      ∧ (∀ x ∈ pre, sh x < sh c)
      ∧ (∀ x ∈ gridCombos ws ens exs, sh x ≤ sh c) := by
  unfold gridSearch
  cases hl : gridCombos ws ens exs with
  | nil => exact absurd hl hne
  | cons c0 rest =>
      rw [hl] at hok
      obtain ⟨m, fr, hrun, hsh⟩ := sharpeRes_some_elim logF sqrtF expF df c0 (sh c0)
        (hok c0 (List.mem_cons_self c0 rest))
      have hrest : ∀ c ∈ rest, sharpeRes logF sqrtF expF df c = some (sh c) :=
        fun c hc => hok c (List.mem_cons_of_mem c0 hc)
      have hstep : gridLoop logF sqrtF expF df (c0 :: rest)
            ((⊥ : WithBot α), none)
          = gridLoop logF sqrtF expF df rest (((sh c0 : α) : WithBot α), some c0) := by
        simp only [gridLoop, hrun, hsh]
        rw [if_pos (WithBot.bot_lt_coe _)]
      rw [hstep]
      rcases gridLoop_select logF sqrtF expF df sh rest (sh c0) c0 hrest with
        ⟨heq, hle⟩ | ⟨pre, c, post, hsplit, heq, hlt, hpre, hpost⟩
      · refine ⟨[], c0, rest, rfl, heq, by simp, ?_⟩
        intro x hx
        rcases List.mem_cons.mp hx with h1 | h1
        · exact le_of_eq (congrArg sh h1)
        · exact hle x h1
      · refine ⟨c0 :: pre, c, post, by rw [hsplit]; rfl, heq, ?_, ?_⟩
        · intro x hx
          rcases List.mem_cons.mp hx with h1 | h1
          · rw [h1]; exact hlt
          · exact hpre x h1
        · intro x hx
          rcases List.mem_cons.mp hx with h1 | h1
          · rw [h1]; exact le_of_lt hlt
          · rw [hsplit] at h1
            rcases List.mem_append.mp h1 with h2 | h2
            · exact le_of_lt (hpre x h2)
            · rcases List.mem_cons.mp h2 with h3 | h3
              · exact le_of_eq (congrArg sh h3)
              · exact hpost x h3

/-- Witness for C3's amended theorem: a singleton grid (window 2, entry 1,
exit 0) on an 11-row constant frame returns a full result with sharpe 0 and
is selected as best. -/
theorem c3_grid_witness :
    ∃ pre c post, gridCombos [2] [(1:ℚ)] [0] = pre ++ c :: post
      ∧ gridSearch (fun x : ℚ => x) (fun x => x) (fun x => x)
          (constFrame 11 1) [2] [1] [0]
          = some (((0:ℚ) : WithBot ℚ), some c)
      ∧ (∀ x ∈ pre, (0:ℚ) < 0)
      ∧ (∀ x ∈ gridCombos [2] [(1:ℚ)] [0], (0:ℚ) ≤ 0) :=
  c3_grid_first_seen_argmax (fun x => x) (fun x => x) (fun x => x)
    (constFrame 11 1) [2] [1] [0] (fun _ => 0)
    (of_decide_eq_true (by with_unfolding_all rfl))
    (of_decide_eq_true (by with_unfolding_all rfl))

/-- Counterexample to C3 as stated: a single-element grid whose combination
yields the -inf sentinel (5 rows of data, fewer than 10 valid returns) does
not come back as best — the driver's tuple unpacking fails on the bare
sentinel dict and the grid search produces nothing. -/
theorem c3_sentinel_grid_counterexample :
    gridSearch Real.log Real.sqrt Real.exp (constFrame 5 1)
      [30] [3/2] [1/2] = none := by
  unfold gridSearch
  have hcombos : gridCombos [30] [(3:ℝ)/2] [1/2] = [(30, 3/2, 1/2)] := rfl
  rw [hcombos]
  have hinv := run_backtest_invalid_of_short Real.log Real.sqrt Real.exp
    (constFrame 5 1) 30 (3/2) (1/2) defaultCost (by norm_num [constFrame])
  simp only [gridLoop, hinv]

/-- C10 (confirmed).  `run_backtest` copies its input frame (line 45) and
adds every derived column to the copy, so the caller's frame is unchanged
and a second call on the same frame returns the same result. -/
theorem c10_input_frame_unchanged (logF sqrtF expF : α → α) (df : Frame α)
    (w : ℕ) (en ex c : α) :
    (run_backtest_call logF sqrtF expF df w en ex c).2 = df
    ∧ run_backtest logF sqrtF expF
        ((run_backtest_call logF sqrtF expF df w en ex c).2) w en ex c
      = run_backtest logF sqrtF expF df w en ex c :=
  ⟨rfl, rfl⟩

end MYRSGD
